import Mathlib

/-!
Verification of the bitstream-cache core of `torii-hdl`
(`src/torii/mixins/bitstream_cache.py`), a content-addressed build-artifact
cache. We shallowly embed the mixin's state, its on-disk cache tree, and its
operations, and prove or refute the specified properties.

Modeling conventions:
* Python strings are `List Char`; file contents are `List Nat` (bytes).
* A filesystem path is a list of components; the working directory is `[]`,
  so the default cache root `Path.cwd() / '.torii_cache'` is the one-component
  path `[toriiCacheLabel]`.
* The filesystem is a pair of a directory set and a file map; `Path.exists`
  is true when the path names either a directory or a file.
* Python exceptions are the `Except PyErr` monad; an attribute access on
  `self` that no attribute, property or method of the class satisfies is an
  `AttributeError`.
-/

namespace ToriiCache

/-- A Python string, modeled as its list of characters. -/
abbrev Str := List Char

/-- File contents, modeled as a list of bytes. -/
abbrev Bytes := List Nat

/-- A filesystem path: its list of components (as produced by pathlib `/`
and `joinpath`). -/
abbrev FsPath := List Str

/-- Python exceptions that the embedded code can raise. -/
inductive PyErr where
  /-- `AttributeError`: the object has no attribute of this name. -/
  | attributeError (attrName : String)
  /-- The build-products collection has no artifact of this name
  (spec section 6: `MissingArtifact`). -/
  | missingArtifact (artifactName : Str)
  /-- A failure raised by the external build-plan executor. -/
  | buildError (msg : String)
deriving DecidableEq

/-- The filesystem: the set of existing directories and the map from file
paths to file contents (most recent write first). -/
structure FS where
  dirs : List FsPath
  files : List (FsPath × Bytes)
deriving DecidableEq

/-- `Path.exists()`: true when the path names an existing directory or an
existing file. -/
def pathExists (fs : FS) (p : FsPath) : Bool :=
  decide (p ∈ fs.dirs) || decide (p ∈ fs.files.map Prod.fst)

/-- `Path.mkdir()`: record the new directory. (In the source, `mkdir` is
only called on paths that were just checked not to exist.) -/
def mkdir (fs : FS) (p : FsPath) : FS :=
  { fs with dirs := p :: fs.dirs }

/-- `open('wb')` followed by `write`: replace the contents at `p`. -/
def writeFile (fs : FS) (p : FsPath) (b : Bytes) : FS :=
  { fs with files := (p, b) :: fs.files.filter (fun e => !decide (e.1 = p)) }

/-- The attribute state a `BitstreamCacheMixin` instance carries after
`__init__`: `self._cache_root`, `self._cache_depth`, `self._cache_rtl`.
These are the only instance attributes the class ever assigns. -/
structure MState where
  _cache_root : FsPath
  _cache_depth : Nat
  _cache_rtl : Bool
deriving DecidableEq

/-- The `.torii_cache` directory name from `__init__`. -/
def toriiCacheLabel : Str := String.toList ".torii_cache"

/-- The state set up by `__init__`: `Path.cwd() / '.torii_cache'` (with the
working directory modeled as `[]`), depth 1, RTL caching on. -/
def initMState : MState :=
  { _cache_root := [toriiCacheLabel], _cache_depth := 1, _cache_rtl := true }

/-- Property `cache_rtl` (getter). -/
def cache_rtl (self : MState) : Bool := self._cache_rtl

/-- Property `cache_depth` (getter): the cache tree depth. -/
def cache_depth (self : MState) : Nat := self._cache_depth

/-- One lowercase hex digit, as produced by Python `format(..., 'x')`. -/
def hexDigit (n : Nat) : Char :=
  if n < 10 then Char.ofNat (48 + n) else Char.ofNat (87 + n)

/-- `f'\x7bi:02x\x7d'` for `0 ≤ i < 256`: the two-lowercase-hex-digit label
of a cache shard directory. (The source only applies this to `range(256)`.) -/
def hex2 (i : Nat) : Str := [hexDigit (i / 16), hexDigit (i % 16)]

/-- `_decompose_digest`: decompose the digest into the list of its
two-character slices `digest[i*2 : i*2+2]` for `i in range(len(digest) // 2)`. -/
def _decompose_digest (digest : Str) : List Str :=
  (List.range (digest.length / 2)).map (fun i => (digest.drop (i * 2)).take 2)

mutual

/-- The nested `_init_dir(root, depth)` of `_init_cache_dir`: at depth 0 do
nothing, otherwise loop over `i in range(256)`. -/
def _init_dir (root : FsPath) (depth : Nat) (fs : FS) : FS :=
  match depth with
  | 0 => fs
  | Nat.succ d => _init_dir_loop root d fs (List.range 256)
termination_by (depth, 0)

/-- The `for i in range(256)` body of `_init_dir`: for each remaining `i`,
if `root / f'\x7bi:02x\x7d'` does not exist, create it and recurse one level
deeper. -/
def _init_dir_loop (root : FsPath) (d : Nat) (fs : FS) (is : List Nat) : FS :=
  match is with
  | [] => fs
  | i :: rest =>
    let stub := root ++ [hex2 i]
    let fs' := if pathExists fs stub then fs else _init_dir stub d (mkdir fs stub)
    _init_dir_loop root d fs' rest
termination_by (d, is.length + 1)

end

/-- `_init_cache_dir`: if the cache root exists, return; otherwise create it
and then the full shard tree down to `self.cache_depth` (the nested
`_init_dir`'s default argument `depth = self.cache_depth`). -/
def _init_cache_dir (self : MState) (fs : FS) : FS :=
  if pathExists fs self._cache_root then fs
  else _init_dir self._cache_root (cache_depth self) (mkdir fs self._cache_root)

/-- Property `cache_root` (getter): initialize the cache tree if needed, then
return `self._cache_root`. -/
def cache_root (self : MState) (fs : FS) : FS × FsPath :=
  (_init_cache_dir self fs, self._cache_root)

/-- The attribute access `self.tree_depth` in `_get_cache_dir`. The class
defines no attribute, property or method named `tree_depth` (`__init__`
assigns only `_cache_root`, `_cache_depth` and `_cache_rtl`, and the
properties are `cache_rtl`, `cache_depth` and `cache_root`), so the access
raises `AttributeError`. -/
def tree_depth_attr (_self : MState) : Except PyErr Nat :=
  .error (.attributeError "tree_depth")

/-- The attribute access `self.cache_dir` in `_get_from_cache` and
`_store_to_cache`. The class defines no attribute, property or method named
`cache_dir` (the digest-indexed method is `_get_cache_dir`), so the access
raises `AttributeError`. -/
def cache_dir_attr (_self : MState) : Except PyErr FsPath :=
  .error (.attributeError "cache_dir")

/-- `_get_cache_dir(digest)`: evaluate `self.cache_root` (which initializes
the cache tree as a side effect), decompose the digest, then slice with
`self.tree_depth` — which raises `AttributeError`, after the tree
initialization already happened. -/
def _get_cache_dir (self : MState) (fs : FS) (digest : Str) :
    FS × Except PyErr FsPath :=
  let fsr := cache_root self fs
  let toks := _decompose_digest digest
  match tree_depth_attr self with
  | .error e => (fsr.1, .error e)
  | .ok n => (fsr.1, .ok (fsr.2 ++ toks.take n))

/-- The dictionary `_get_from_cache` returns on a hit: the digest-based
bitstream name and `LocalBuildProducts(str(self.cache_dir))`, a handle on the
shard directory. -/
structure CacheHit where
  hitName : Str
  productsDir : FsPath
deriving DecidableEq

/-- Modelled from the spec: `LocalBuildProducts` (torii.build.run, not under
src/) is a `BuildArtifactSet`, "an opaque, named collection of byte blobs"
with `get(artifact_name) -> bytes, failing with MissingArtifact if absent`
(spec sections 3 and 6). -/
structure Products where
  entries : List (Str × Bytes)
deriving DecidableEq

/-- Modelled from the spec: `BuildArtifactSet.get(artifact_name) -> bytes`,
failing with `MissingArtifact` if absent (spec section 6). -/
def Products.get (prod : Products) (artifactName : Str) : Except PyErr Bytes :=
  match prod.entries.find? (fun e => decide (e.1 = artifactName)) with
  | some e => .ok e.2
  | none => .error (.missingArtifact artifactName)

/-- Modelled from the spec: the streaming lossless compressor
(`LZMACompressor`; `compress` then `flush`). Codec internals are explicitly
out of scope (spec section 1), so it is modeled as an unspecified total
transformation of the input bytes. -/
def lzmaCompress (data : Bytes) : Bytes := data

/-- The `.bin` suffix. -/
def dotBin : Str := String.toList ".bin"

/-- `_get_from_cache(digest)`: build `f'\x7bdigest\x7d.bin'`, then access
`self.cache_dir` — which raises `AttributeError` before any filesystem
access. The dead continuation after the failing attribute access follows the
source: miss (`None`) when the file is absent, otherwise the name/products
dictionary. -/
def _get_from_cache (self : MState) (fs : FS) (digest : Str) :
    FS × Except PyErr (Option CacheHit) :=
  let bitstream_name := digest ++ dotBin
  match cache_dir_attr self with
  | .error e => (fs, .error e)
  | .ok cd =>
    let bitstream_file := cd ++ [bitstream_name]
    if pathExists fs bitstream_file then
      (fs, .ok (some { hitName := bitstream_name, productsDir := cd }))
    else
      (fs, .ok none)

/-- `_store_to_cache(digest, prod, name)`: build `f'\x7bdigest\x7d.bin'`,
then access `self.cache_dir` — which raises `AttributeError` before any
filesystem access. The dead continuation follows the source: open/truncate
the bitstream file, write `prod.get(f'\x7bname\x7d.bin')`, and if
`self.cache_rtl`, compress and write the debug RTL alongside. -/
def _store_to_cache (self : MState) (fs : FS) (digest : Str) (prod : Products)
    (name : Str) : FS × Except PyErr Unit :=
  let bitstream_name := digest ++ dotBin
  match cache_dir_attr self with
  | .error e => (fs, .error e)
  | .ok cd =>
    let bitstream_file := cd ++ [bitstream_name]
    let fs1 := writeFile fs bitstream_file []
    match prod.get (name ++ dotBin) with
    | .error e => (fs1, .error e)
    | .ok bits =>
      let fs2 := writeFile fs1 bitstream_file bits
      if cache_rtl self then
        let rtl_file := cd ++ [digest ++ String.toList ".debug.v.xz"]
        let fs3 := writeFile fs2 rtl_file []
        match prod.get (name ++ String.toList ".debug.v") with
        | .error e => (fs3, .error e)
        | .ok rtl => (writeFile fs3 rtl_file (lzmaCompress rtl), .ok ())
      else (fs2, .ok ())

/-- The deterministic build plan handed back by `super().build(...)` with
`do_build = False` (the external elaboration collaborator, spec section 6):
its hex-encoded digest `plan.digest(size = 32).hex()` and the outcome
`plan.execute_local(build_dir)` would produce. -/
structure BuildPlan where
  digestHex : Str
  execOutcome : Except PyErr Products

/-- The second component of `_build_elaboratable`'s return value: the
un-executed plan (when `do_build` is false), freshly built products, or the
products handle of a cache hit. -/
inductive BuildRes where
  | planned (plan : BuildPlan)
  | built (prod : Products)
  | cachedProducts (dir : FsPath)

/-- The world a build invocation acts on: the filesystem plus a count of how
many times the external build-plan executor has been invoked. -/
structure World where
  fs : FS
  execCount : Nat

/-- `plan.execute_local(build_dir)`: one invocation of the external
build-plan executor (spec section 6); returns the plan's execution outcome. -/
def execute_local (w : World) (plan : BuildPlan) : World × Except PyErr Products :=
  ({ w with execCount := w.execCount + 1 }, plan.execOutcome)

/-- `_build_elaboratable`: elaborate (the plan is the given input), return it
if `do_build` is false; otherwise compute the digest, consult the cache, and
either execute (storing unless `skip_cache`) or take the cached entry,
renaming the result to the cached digest-based name. -/
def _build_elaboratable (self : MState) (w : World) (plan : BuildPlan)
    (name : Str) (do_build : Bool) (skip_cache : Bool) :
    World × Except PyErr (Str × BuildRes) :=
  if !do_build then (w, .ok (name, .planned plan))
  else
    let digest := plan.digestHex
    match _get_from_cache self w.fs digest with
    | (fs1, .error e) => ({ w with fs := fs1 }, .error e)
    | (fs1, .ok cached) =>
      let w1 : World := { w with fs := fs1 }
      -- `if cached is None or skip_cache:` — execute, then store unless
      -- `skip_cache`; `else:` — take the cached name and products.
      let execPath : World × Except PyErr (Str × BuildRes) :=
        let er := execute_local w1 plan
        match er.2 with
        | .error e => (er.1, .error e)
        | .ok prod =>
          if !skip_cache then
            let sr := _store_to_cache self er.1.fs digest prod name
            match sr.2 with
            | .error e => ({ er.1 with fs := sr.1 }, .error e)
            | .ok _ => ({ er.1 with fs := sr.1 }, .ok (name, .built prod))
          else (er.1, .ok (name, .built prod))
      match cached with
      | none => execPath
      | some c =>
        if skip_cache then execPath
        else (w1, .ok (c.hitName, .cachedProducts c.productsDir))

/-- The public `build` method: delegates to `_build_elaboratable`
(`do_program` handling is deferred in the source). -/
def build (self : MState) (w : World) (plan : BuildPlan) (name : Str)
    (do_build : Bool) (skip_cache : Bool) :
    World × Except PyErr (Str × BuildRes) :=
  _build_elaboratable self w plan name do_build skip_cache

/-! ### Specification-side definitions (from the spec's words, for
comparison with the embedded source) -/

/-- The path `p` lies strictly below `root`. -/
def strictlyUnder (root p : FsPath) : Prop :=
  ∃ rest, rest ≠ [] ∧ p = root ++ rest

/-- Following the spec's words (sections 4.2 and 8): `p` is a directory of
the complete 256-ary tree below `root` whose levels are named by the
two-lowercase-hex-digit labels `00`..`ff`, down to depth `d`. -/
def specUnderTree (root : FsPath) (d : Nat) (p : FsPath) : Prop :=
  ∃ labels : List Str, p = root ++ labels ∧ labels ≠ [] ∧ labels.length ≤ d ∧
    ∀ l ∈ labels, ∃ i, i < 256 ∧ l = hex2 i

/-- A hexadecimal-digit character (the spec's "valid hex string" fixes no
case, so both cases are accepted). -/
def isHexChar (c : Char) : Bool :=
  c.isDigit || (97 ≤ c.toNat && c.toNat ≤ 102) || (65 ≤ c.toNat && c.toNat ≤ 70)

/-! ### Concrete fixtures -/

/-- The empty filesystem: a fresh working directory with no cache root. -/
def fs0 : FS := { dirs := [], files := [] }

/-- A fresh world: empty filesystem, executor never invoked. -/
def w0 : World := { fs := fs0, execCount := 0 }

/-- A concrete digest. -/
def digest0 : Str := String.toList "abcd"

/-- A concrete artifact set holding the primary artifact `top.bin` and the
debug artifact `top.debug.v`. -/
def prod0 : Products :=
  { entries := [(String.toList "top.bin", [127, 66, 73, 84]),
                (String.toList "top.debug.v", [109, 111, 100])] }

/-- A concrete plan whose execution succeeds with `prod0`. -/
def plan0 : BuildPlan := { digestHex := digest0, execOutcome := .ok prod0 }

/-! ### Helper lemmas about the filesystem model -/

lemma pathExists_false_iff (fs : FS) (p : FsPath) :
    pathExists fs p = false ↔ p ∉ fs.dirs ∧ p ∉ fs.files.map Prod.fst := by
  simp [pathExists]

lemma pathExists_true_of_mem (fs : FS) (p : FsPath) (h : p ∈ fs.dirs) :
    pathExists fs p = true := by
  simp [pathExists, h]

/-- Appending distinct material after a common prefix plus one label forces
the labels (and tails) to agree. -/
lemma append_label_inj {root : FsPath} {a b : Str} {r1 r2 : List Str}
    (h : root ++ [a] ++ r1 = root ++ [b] ++ r2) : a = b ∧ r1 = r2 := by
  rw [List.append_assoc, List.append_assoc] at h
  have h2 := List.append_cancel_left h
  simpa using h2

lemma append_label_eq {root : FsPath} {a b : Str} {r1 : List Str}
    (h : root ++ [a] ++ r1 = root ++ [b]) : a = b ∧ r1 = [] := by
  have h2 : root ++ [a] ++ r1 = root ++ [b] ++ ([] : List Str) := by
    rw [List.append_nil]
    exact h
  exact append_label_inj h2

/-! ### Helper lemmas about the hex labels -/

lemma hexDigit_inj_fin : ∀ a b : Fin 16, hexDigit a.val = hexDigit b.val → a = b := by
  decide

lemma hex2_inj {i j : Nat} (hi : i < 256) (hj : j < 256)
    (h : hex2 i = hex2 j) : i = j := by
  simp only [hex2, List.cons.injEq, and_true] at h
  obtain ⟨h1, h2⟩ := h
  have d1 := hexDigit_inj_fin ⟨i / 16, by omega⟩ ⟨j / 16, by omega⟩ h1
  have d2 := hexDigit_inj_fin ⟨i % 16, by omega⟩ ⟨j % 16, by omega⟩ h2
  have e1 : i / 16 = j / 16 := congrArg Fin.val d1
  have e2 : i % 16 = j % 16 := congrArg Fin.val d2
  omega

/-! ### Helper lemmas about `_init_dir` -/

/-- The loop never touches files (given that one recursion level does not). -/
lemma init_dir_loop_files (root : FsPath) (d : Nat)
    (hd : ∀ r fs, (_init_dir r d fs).files = fs.files) :
    ∀ (is : List Nat) (fs : FS), (_init_dir_loop root d fs is).files = fs.files := by
  intro is
  induction is with
  | nil => intro fs; simp [_init_dir_loop]
  | cons i rest ih =>
    intro fs
    simp only [_init_dir_loop]
    rw [ih]
    by_cases h : pathExists fs (root ++ [hex2 i]) = true
    · simp [h]
    · simp only [Bool.not_eq_true] at h
      simp [h, hd, mkdir]

/-- `_init_dir` never creates, deletes or modifies files. -/
lemma init_dir_files : ∀ (d : Nat) (root : FsPath) (fs : FS),
    (_init_dir root d fs).files = fs.files := by
  intro d
  induction d with
  | zero => intro root fs; simp [_init_dir]
  | succ d ih =>
    intro root fs
    simp only [_init_dir]
    exact init_dir_loop_files root d (fun r fs' => ih r fs') _ fs

/-- The loop only adds directories (given that one recursion level does). -/
lemma init_dir_loop_dirs_mono (root : FsPath) (d : Nat)
    (hd : ∀ r fs p, p ∈ fs.dirs → p ∈ (_init_dir r d fs).dirs) :
    ∀ (is : List Nat) (fs : FS) (p : FsPath),
      p ∈ fs.dirs → p ∈ (_init_dir_loop root d fs is).dirs := by
  intro is
  induction is with
  | nil => intro fs p hp; simpa [_init_dir_loop] using hp
  | cons i rest ih =>
    intro fs p hp
    simp only [_init_dir_loop]
    apply ih
    by_cases h : pathExists fs (root ++ [hex2 i]) = true
    · simpa [h] using hp
    · simp only [Bool.not_eq_true] at h
      simp only [h]
      exact hd _ _ _ (by simp [mkdir, hp])

/-- `_init_dir` only adds directories. -/
lemma init_dir_dirs_mono : ∀ (d : Nat) (root : FsPath) (fs : FS) (p : FsPath),
    p ∈ fs.dirs → p ∈ (_init_dir root d fs).dirs := by
  intro d
  induction d with
  | zero => intro root fs p hp; simpa [_init_dir] using hp
  | succ d ih =>
    intro root fs p hp
    simp only [_init_dir]
    exact init_dir_loop_dirs_mono root d ih _ fs p hp

/-! ### Helper lemmas about the spec-side tree -/

lemma specUnderTree_zero (root p : FsPath) : ¬ specUnderTree root 0 p := by
  rintro ⟨labels, _, hne, hlen, _⟩
  cases labels with
  | nil => exact hne rfl
  | cons l ls => simp at hlen

lemma specUnderTree_succ (root : FsPath) (d : Nat) (p : FsPath) :
    specUnderTree root (d + 1) p ↔
      ∃ i, i < 256 ∧ (p = root ++ [hex2 i] ∨ specUnderTree (root ++ [hex2 i]) d p) := by
  constructor
  · rintro ⟨labels, rfl, hne, hlen, hhex⟩
    match labels, hne with
    | l :: ls, _ =>
      obtain ⟨i, hi, rfl⟩ := hhex l (by simp)
      refine ⟨i, hi, ?_⟩
      cases ls with
      | nil => left; simp
      | cons l2 ls2 =>
        right
        refine ⟨l2 :: ls2, by simp, by simp, ?_, ?_⟩
        · simp only [List.length_cons] at hlen ⊢
          omega
        · intro x hx
          exact hhex x (List.mem_cons_of_mem _ hx)
  · rintro ⟨i, hi, h | ⟨labels, hp, hne, hlen, hhex⟩⟩
    · exact ⟨[hex2 i], by simp [h], by simp, by simp, by
        intro l hl
        simp only [List.mem_singleton] at hl
        exact ⟨i, hi, hl⟩⟩
    · refine ⟨hex2 i :: labels, by simp [hp], by simp, ?_, ?_⟩
      · simp only [List.length_cons]
        omega
      · intro l hl
        rcases List.mem_cons.mp hl with rfl | hl2
        · exact ⟨i, hi, rfl⟩
        · exact hhex l hl2

/-- Elements of the spec tree lie strictly below its root. -/
lemma specUnderTree_strictlyUnder {root : FsPath} {d : Nat} {p : FsPath}
    (h : specUnderTree root d p) : strictlyUnder root p := by
  obtain ⟨labels, rfl, hne, _, _⟩ := h
  exact ⟨labels, hne, rfl⟩

/-! ### The `_init_dir` directory-set characterization -/

/-- One loop pass over the pending labels `is` adds exactly the complete
subtrees rooted at the pending stubs, provided nothing at or below a pending
stub exists yet. -/
lemma init_dir_loop_dirs (root : FsPath) (d : Nat)
    (hd : ∀ r fs, (∀ p, strictlyUnder r p → pathExists fs p = false) →
          ∀ p, p ∈ (_init_dir r d fs).dirs ↔ p ∈ fs.dirs ∨ specUnderTree r d p) :
    ∀ (is : List Nat) (fs : FS),
      (∀ i ∈ is, i < 256) → is.Nodup →
      (∀ p i, i ∈ is → (∃ rest, p = root ++ [hex2 i] ++ rest) →
        pathExists fs p = false) →
      ∀ p, p ∈ (_init_dir_loop root d fs is).dirs ↔
        p ∈ fs.dirs ∨
          ∃ i ∈ is, p = root ++ [hex2 i] ∨ specUnderTree (root ++ [hex2 i]) d p := by
  intro is
  induction is with
  | nil => intro fs _ _ _ p; simp [_init_dir_loop]
  | cons i rest ih =>
    intro fs hbound hnodup hfree p
    have hstub : pathExists fs (root ++ [hex2 i]) = false :=
      hfree _ i (by simp) ⟨[], by simp⟩
    have hifree : ∀ q, strictlyUnder (root ++ [hex2 i]) q →
        pathExists (mkdir fs (root ++ [hex2 i])) q = false := by
      rintro q ⟨rest', hne', rfl⟩
      rw [pathExists_false_iff]
      have hq : pathExists fs (root ++ [hex2 i] ++ rest') = false :=
        hfree _ i (by simp) ⟨rest', rfl⟩
      rw [pathExists_false_iff] at hq
      refine ⟨?_, by simpa [mkdir] using hq.2⟩
      simp only [mkdir, List.mem_cons]
      rintro (heq | hmem)
      · obtain ⟨-, hnil⟩ := append_label_eq heq
        exact hne' hnil
      · exact hq.1 hmem
    have hchar := hd (root ++ [hex2 i]) (mkdir fs (root ++ [hex2 i])) hifree
    have hfiles' : (_init_dir (root ++ [hex2 i]) d (mkdir fs (root ++ [hex2 i]))).files
        = fs.files := by
      rw [init_dir_files]
      simp [mkdir]
    have hfree' : ∀ q j, j ∈ rest → (∃ r', q = root ++ [hex2 j] ++ r') →
        pathExists (_init_dir (root ++ [hex2 i]) d (mkdir fs (root ++ [hex2 i]))) q
          = false := by
      rintro q j hj ⟨r', rfl⟩
      have hne : j ≠ i := by
        rintro rfl
        exact (List.nodup_cons.mp hnodup).1 hj
      have hqfs : pathExists fs (root ++ [hex2 j] ++ r') = false :=
        hfree _ j (by simp [hj]) ⟨r', rfl⟩
      rw [pathExists_false_iff] at hqfs
      rw [pathExists_false_iff]
      constructor
      · intro hmem
        rcases (hchar _).mp hmem with hmem2 | hspec
        · simp only [mkdir, List.mem_cons] at hmem2
          rcases hmem2 with heq | hmem3
          · obtain ⟨hlab, -⟩ := append_label_eq heq
            exact hne (hex2_inj (hbound j (by simp [hj])) (hbound i (by simp)) hlab)
          · exact hqfs.1 hmem3
        · obtain ⟨labels, hpeq, -, -, -⟩ := hspec
          obtain ⟨hlab, -⟩ := append_label_inj (hpeq ▸ rfl :
            root ++ [hex2 j] ++ r' = root ++ [hex2 i] ++ labels)
          exact hne (hex2_inj (hbound j (by simp [hj])) (hbound i (by simp)) hlab)
      · rw [hfiles']
        exact hqfs.2
    have hrest := ih (_init_dir (root ++ [hex2 i]) d (mkdir fs (root ++ [hex2 i])))
      (fun j hj => hbound j (by simp [hj])) (List.nodup_cons.mp hnodup).2 hfree'
    simp only [_init_dir_loop, hstub, Bool.false_eq_true, if_false]
    rw [hrest p]
    constructor
    · rintro (hmem | ⟨j, hj, hcase⟩)
      · rcases (hchar _).mp hmem with hmem2 | hspec
        · simp only [mkdir, List.mem_cons] at hmem2
          rcases hmem2 with heq | hmem3
          · exact Or.inr ⟨i, by simp, Or.inl heq⟩
          · exact Or.inl hmem3
        · exact Or.inr ⟨i, by simp, Or.inr hspec⟩
      · exact Or.inr ⟨j, by simp [hj], hcase⟩
    · rintro (hmem | ⟨j, hj, hcase⟩)
      · exact Or.inl ((hchar _).mpr (Or.inl (by simp [mkdir, hmem])))
      · rcases List.mem_cons.mp hj with rfl | hj2
        · rcases hcase with heq | hspec
          · exact Or.inl ((hchar _).mpr (Or.inl (by simp [mkdir, heq])))
          · exact Or.inl ((hchar _).mpr (Or.inr hspec))
        · exact Or.inr ⟨j, hj2, hcase⟩

/-- `_init_dir root d` on a filesystem with nothing strictly below `root`
adds exactly the complete depth-`d` shard tree below `root`. -/
lemma init_dir_dirs : ∀ (d : Nat) (root : FsPath) (fs : FS),
    (∀ p, strictlyUnder root p → pathExists fs p = false) →
    ∀ p, p ∈ (_init_dir root d fs).dirs ↔ p ∈ fs.dirs ∨ specUnderTree root d p := by
  intro d
  induction d with
  | zero =>
    intro root fs _ p
    simp only [_init_dir]
    exact ⟨fun h => Or.inl h, fun h => h.elim id (fun h2 => absurd h2 (specUnderTree_zero root p))⟩
  | succ d ih =>
    intro root fs hfree p
    simp only [_init_dir]
    rw [init_dir_loop_dirs root d ih (List.range 256) fs
      (fun j hj => List.mem_range.mp hj) (List.nodup_range 256)
      (fun q j hj ⟨r', hq⟩ => hfree q ⟨hex2 j :: r', by simp, by simpa using hq⟩) p]
    rw [specUnderTree_succ]
    constructor
    · rintro (hmem | ⟨j, hj, hcase⟩)
      · exact Or.inl hmem
      · exact Or.inr ⟨j, List.mem_range.mp hj, hcase⟩
    · rintro (hmem | ⟨j, hj, hcase⟩)
      · exact Or.inl hmem
      · exact Or.inr ⟨j, List.mem_range.mpr hj, hcase⟩

/-! ### `_init_cache_dir` facts -/

/-- When the cache root already exists, initialization is a no-op. -/
lemma init_cache_dir_noop (self : MState) (fs : FS)
    (h : pathExists fs self._cache_root = true) :
    _init_cache_dir self fs = fs := by
  simp [_init_cache_dir, h]

/-- After initialization, the cache root exists. -/
lemma root_exists_after_init (self : MState) (fs : FS) :
    pathExists (_init_cache_dir self fs) self._cache_root = true := by
  by_cases h : pathExists fs self._cache_root = true
  · rw [init_cache_dir_noop self fs h]
    exact h
  · simp only [Bool.not_eq_true] at h
    simp only [_init_cache_dir, h, Bool.false_eq_true, if_false]
    exact pathExists_true_of_mem _ _
      (init_dir_dirs_mono _ _ _ _ (by simp [mkdir]))

/-- Initializing twice is the same as initializing once. -/
lemma init_cache_dir_idem (self : MState) (fs : FS) :
    _init_cache_dir self (_init_cache_dir self fs) = _init_cache_dir self fs :=
  init_cache_dir_noop self _ (root_exists_after_init self fs)

/-! ### Helper lemmas about digest decomposition -/

/-- Concatenating the first `k` two-character slices of `d` recovers the
first `k * 2` characters of `d`. -/
lemma decompose_join_aux (d : Str) :
    ∀ k, k * 2 ≤ d.length →
      ((List.range k).map (fun i => (d.drop (i * 2)).take 2)).flatten
        = d.take (k * 2) := by
  intro k
  induction k with
  | zero => intro _; simp
  | succ k ih =>
    intro hk
    rw [List.range_succ, List.map_append, List.flatten_append, ih (by omega)]
    simp only [List.map_cons, List.map_nil, List.flatten_cons, List.flatten_nil,
      List.append_nil]
    rw [show (k + 1) * 2 = k * 2 + 2 by ring, List.take_add]

/-- The concatenation of all of `_decompose_digest d` is the even-length
prefix of `d`. -/
lemma decompose_join (d : Str) :
    (_decompose_digest d).flatten = d.take ((d.length / 2) * 2) :=
  decompose_join_aux d (d.length / 2) (by omega)

/-! ### Claim theorems -/

/-- C1: the claimed store/lookup round-trip never happens on this code. Both
`_store_to_cache` and `_get_from_cache` read `self.cache_dir`, an attribute
the class does not define, so for every state, digest, artifact set and name
both raise `AttributeError` with the filesystem untouched: the stored-then-
looked-up hit the claim promises is unreachable. -/
theorem C1_store_lookup_roundtrip_bug (self : MState) (fs : FS) (digest : Str)
    (prod : Products) (name : Str) :
    _store_to_cache self fs digest prod name
        = (fs, .error (.attributeError "cache_dir"))
    ∧ _get_from_cache self fs digest
        = (fs, .error (.attributeError "cache_dir")) :=
  ⟨rfl, rfl⟩

/-- C2: `lookup` never reports a miss on this code. For every state and
digest — in particular a digest never stored — `_get_from_cache` raises
`AttributeError` on the undefined attribute `self.cache_dir` instead of
returning `None`, contradicting the claim that absence is reported as a
non-error miss. -/
theorem C2_lookup_never_miss_bug (self : MState) (fs : FS) (digest : Str) :
    _get_from_cache self fs digest = (fs, .error (.attributeError "cache_dir")) :=
  rfl

/-- C4: `shard_path_for` never returns a path on this code. For every state
and digest, `_get_cache_dir` raises `AttributeError` on the undefined
attribute `self.tree_depth` (the defined property is `cache_depth`), so it
never evaluates to the claimed `root / decompose(digest)[0:shard_depth]`. -/
theorem C4_shard_path_bug (self : MState) (fs : FS) (digest : Str) :
    (_get_cache_dir self fs digest).2 = .error (.attributeError "tree_depth") :=
  rfl

/-- C7: the cache-hit path of `build` is unreachable on this code. For every
state (including ones where the digest's bitstream file is present at the
intended shard path), a `do_build` invocation with `skip_cache = false`
raises `AttributeError` inside the cache lookup and returns no name or
artifact set, and the world — in particular the executor-invocation count —
is unchanged. -/
theorem C7_cache_hit_unreachable_bug (self : MState) (w : World)
    (plan : BuildPlan) (name : Str) :
    _build_elaboratable self w plan name true false
      = (w, .error (.attributeError "cache_dir")) :=
  rfl

/-- C8: `build` with `skip_cache = true` never reaches the executor on this
code. The cache lookup runs unconditionally before `skip_cache` is consulted
and raises `AttributeError`, so for every state the invocation errors with
the world unchanged — the executor is not invoked (and, vacuously, the cache
is also not written). -/
theorem C8_skip_cache_bug (self : MState) (w : World) (plan : BuildPlan)
    (name : Str) :
    _build_elaboratable self w plan name true true
      = (w, .error (.attributeError "cache_dir")) :=
  rfl

/-- C9: the execution step of `build` is unreachable on this code. Even for
a plan whose execution would fail with an arbitrary executor error `e`, the
invocation instead raises `AttributeError` in the cache lookup before
`execute_local` ever runs: the returned world equals the input world (the
executor-invocation count is unchanged and no store happened), and the
propagated failure is the `AttributeError`, not `e`. -/
theorem C9_execute_unreachable_bug (self : MState) (w : World) (digest : Str)
    (e : PyErr) (name : Str) :
    _build_elaboratable self w { digestHex := digest, execOutcome := .error e }
        name true false
      = (w, .error (.attributeError "cache_dir")) :=
  rfl

/-- C3 counterexample: the claim says each of the three operations raises an
attribute-lookup error *before touching the filesystem*, but on the concrete
fresh filesystem `fs0` the call `_get_cache_dir` does raise the
`AttributeError` — yet only after its `self.cache_root` access has mutated
the filesystem (it creates the cache tree), so the resulting filesystem
differs from `fs0`. -/
theorem C3_counterexample :
    (_get_cache_dir initMState fs0 digest0).2
        = .error (.attributeError "tree_depth")
    ∧ (_get_cache_dir initMState fs0 digest0).1 ≠ fs0 := by
  refine ⟨rfl, fun h => ?_⟩
  have hroot : pathExists (_get_cache_dir initMState fs0 digest0).1
      initMState._cache_root = true :=
    root_exists_after_init initMState fs0
  rw [h] at hroot
  simp [pathExists, fs0] at hroot

/-- C3 (amended): `_get_from_cache` and `_store_to_cache` raise an
attribute-lookup error (on the undefined `self.cache_dir`) before touching
the filesystem, while `_get_cache_dir` raises an attribute-lookup error (on
the undefined `self.tree_depth`) only after its `cache_root` access has
initialized the cache tree, a filesystem mutation when the root is absent;
consequently no call to these operations ever returns a hit, returns a miss,
or writes a cache file. -/
theorem C3_attribute_errors_amended (self : MState) (fs : FS) (digest : Str)
    (prod : Products) (name : Str) :
    _get_from_cache self fs digest = (fs, .error (.attributeError "cache_dir"))
    ∧ _store_to_cache self fs digest prod name
        = (fs, .error (.attributeError "cache_dir"))
    ∧ (_get_cache_dir self fs digest).2 = .error (.attributeError "tree_depth")
    ∧ (_get_cache_dir self fs digest).1 = _init_cache_dir self fs :=
  ⟨rfl, rfl, rfl, rfl⟩

/-- C6: when nothing exists at or below the configured root, initialization
creates exactly the root plus the complete 256-ary tree of
two-lowercase-hex-digit-labeled subdirectories down to `self._cache_depth`,
touching no files; when the root already exists it is a no-op; and
initializing twice equals initializing once, the second call performing no
filesystem mutation. -/
theorem C6_init_cache_tree (self : MState) (fs : FS)
    (hfresh : ∀ p, (∃ rest, p = self._cache_root ++ rest) →
      pathExists fs p = false) :
    (_init_cache_dir self fs).files = fs.files
    ∧ (∀ p, p ∈ (_init_cache_dir self fs).dirs ↔
        p ∈ fs.dirs ∨ p = self._cache_root
          ∨ specUnderTree self._cache_root self._cache_depth p)
    ∧ (∀ fs', pathExists fs' self._cache_root = true →
        _init_cache_dir self fs' = fs')
    ∧ (∀ fs', _init_cache_dir self (_init_cache_dir self fs')
        = _init_cache_dir self fs') := by
  have hroot : pathExists fs self._cache_root = false :=
    hfresh _ ⟨[], by simp⟩
  have hunfold : _init_cache_dir self fs
      = _init_dir self._cache_root self._cache_depth (mkdir fs self._cache_root) := by
    simp [_init_cache_dir, hroot, cache_depth]
  have hsub : ∀ p, strictlyUnder self._cache_root p →
      pathExists (mkdir fs self._cache_root) p = false := by
    rintro p ⟨rest, hne, rfl⟩
    have hp := hfresh _ ⟨rest, rfl⟩
    rw [pathExists_false_iff] at hp ⊢
    refine ⟨?_, by simpa [mkdir] using hp.2⟩
    simp only [mkdir, List.mem_cons]
    rintro (heq | hmem)
    · have hlen := congrArg List.length heq
      simp at hlen
      exact hne hlen
    · exact hp.1 hmem
  refine ⟨?_, ?_, init_cache_dir_noop self, init_cache_dir_idem self⟩
  · rw [hunfold, init_dir_files]
    simp [mkdir]
  · intro p
    rw [hunfold, init_dir_dirs self._cache_depth self._cache_root _ hsub p]
    simp only [mkdir, List.mem_cons]
    tauto

/-- C6 witness: the theorem applied at the instance state set up by
`__init__` and the empty filesystem. -/
theorem C6_init_cache_tree_witness :
    (∀ p, (∃ rest, p = initMState._cache_root ++ rest) →
      pathExists fs0 p = false)
    ∧ ((_init_cache_dir initMState fs0).files = fs0.files
       ∧ (∀ p, p ∈ (_init_cache_dir initMState fs0).dirs ↔
            p ∈ fs0.dirs ∨ p = initMState._cache_root
              ∨ specUnderTree initMState._cache_root initMState._cache_depth p)
       ∧ (∀ fs', pathExists fs' initMState._cache_root = true →
            _init_cache_dir initMState fs' = fs')
       ∧ (∀ fs', _init_cache_dir initMState (_init_cache_dir initMState fs')
            = _init_cache_dir initMState fs')) :=
  ⟨fun p _ => by simp [pathExists, fs0],
   C6_init_cache_tree initMState fs0 (fun p _ => by simp [pathExists, fs0])⟩

/-- C5: for every even-length hex string `d`, `_decompose_digest d` yields
exactly `len d / 2` tokens, each a 2-character hex string, in digest order:
their concatenation equals `d`. -/
theorem C5_decompose_even (d : Str) (heven : d.length % 2 = 0)
    (hhex : ∀ c ∈ d, isHexChar c = true) :
    (_decompose_digest d).length = d.length / 2
    ∧ (∀ t ∈ _decompose_digest d, t.length = 2 ∧ ∀ c ∈ t, isHexChar c = true)
    ∧ (_decompose_digest d).flatten = d := by
  refine ⟨by simp [_decompose_digest], ?_, ?_⟩
  · intro t ht
    simp only [_decompose_digest, List.mem_map, List.mem_range] at ht
    obtain ⟨i, hi, rfl⟩ := ht
    constructor
    · simp only [List.length_take, List.length_drop]
      omega
    · intro c hc
      exact hhex c (List.drop_subset _ _ (List.take_subset _ _ hc))
  · rw [decompose_join]
    have h2 : d.length / 2 * 2 = d.length := by omega
    rw [h2, List.take_length]

/-- C5 witness: the theorem applied at the concrete digest `"ab12"`. -/
theorem C5_decompose_even_witness :
    ((String.toList "ab12").length % 2 = 0
      ∧ ∀ c ∈ String.toList "ab12", isHexChar c = true)
    ∧ ((_decompose_digest (String.toList "ab12")).length
          = (String.toList "ab12").length / 2
       ∧ (∀ t ∈ _decompose_digest (String.toList "ab12"),
            t.length = 2 ∧ ∀ c ∈ t, isHexChar c = true)
       ∧ (_decompose_digest (String.toList "ab12")).flatten
          = String.toList "ab12") :=
  ⟨⟨by decide, by decide⟩, C5_decompose_even (String.toList "ab12") (by decide) (by decide)⟩

/-- C10: for every string `d`, `_decompose_digest d` has `len d / 2` tokens
(so the function is total and never raises), and when the length is odd the
concatenation of the tokens is `d` with its final character removed: the
final character is silently dropped. -/
theorem C10_decompose_odd (d : Str) :
    (_decompose_digest d).length = d.length / 2
    ∧ (d.length % 2 = 1 → (_decompose_digest d).flatten = d.dropLast) := by
  refine ⟨by simp [_decompose_digest], fun hodd => ?_⟩
  rw [decompose_join, List.dropLast_eq_take]
  have h2 : d.length / 2 * 2 = d.length - 1 := by omega
  rw [h2]

/-- C10 witness: the theorem applied at the concrete odd-length digest
`"abc"`. -/
theorem C10_decompose_odd_witness :
    (String.toList "abc").length % 2 = 1
    ∧ (_decompose_digest (String.toList "abc")).flatten
        = (String.toList "abc").dropLast :=
  ⟨by decide, (C10_decompose_odd (String.toList "abc")).2 (by decide)⟩

end ToriiCache
